import Mathlib

/-!
# Health-check filter plugin (pilot/pkg/networking/plugin/health/health.go)

A shallow embedding of the health plugin of the pilot: the construction of the
health-check HTTP filter for a probe, the loop that appends the filters of the
applicable probes to a filter chain, the duplicate scan, and the inbound-listener hook.

Conventions of the embedding.

* A Go pointer that the code compares with nil (the node, the service instance, the
  listener, the port of a probe) is an `Option`. A pointer that the code dereferences
  without a test (a probe, the endpoint, the push context, an element of the filter
  list) is a plain value: the embedding covers the calls in which these are not nil.
* In-place mutation of a filter chain is explicit state passing: a function returns
  the chain it leaves behind.
* `reflect.DeepEqual` on two filter pointers is structural equality of the two
  filter values.
* An index outside a slice is the outcome `panicked`, together with the state reached.
* The external parts that health.go only calls (the well-known filter name and the
  packing of a message into `Any`) are parameters, collected in `Deps`.
-/

set_option linter.dupNamespace false

namespace Health

/-! ## Envoy messages used by the plugin -/

/-- Packed message (anypb.Any): the type URL and the serialised bytes. -/
structure Any where
  TypeUrl : String
  Value : List Nat
deriving DecidableEq, Repr

/-- The oneof of route.HeaderMatcher that selects how the header value is matched. -/
inductive HeaderMatchSpecifier where
  | ExactMatch (s : String)
  | PrefixMatch (s : String)
  | SuffixMatch (s : String)
  | PresentMatch (b : Bool)
deriving DecidableEq, Repr

/-- Header matcher (route.HeaderMatcher). -/
structure HeaderMatcher where
  Name : String
  HeaderMatchSpecifier : HeaderMatchSpecifier
deriving DecidableEq, Repr

/-- Configuration of the health-check filter (hcfilter.HealthCheck); the wrapper
pointer of PassThroughMode is an option. -/
structure HealthCheck where
  PassThroughMode : Option Bool
  Headers : List HeaderMatcher
deriving DecidableEq, Repr

/-- The oneof config_type of an HTTP filter. -/
inductive ConfigType where
  | unset
  | TypedConfig (TypedConfig : Any)
deriving DecidableEq, Repr

/-- HTTP filter descriptor (http_conn.HttpFilter): a name and a typed configuration. -/
structure HttpFilter where
  Name : String
  ConfigType : ConfigType
deriving DecidableEq, Repr

/-! ## Model types of the pilot -/

/-- Service port (model.Port); Port is a Go int. -/
structure Port where
  Name : String
  Port : Int
deriving DecidableEq, Repr

/-- Probe (model.Probe): an optional port and the HTTP path of the probe. -/
structure Probe where
  Port : Option Port
  Path : String
deriving DecidableEq, Repr

/-- Ordered list of probes (model.ProbeList). -/
abbrev ProbeList := List Probe

/-- Endpoint of a service instance (model.IstioEndpoint); EndpointPort is a uint32. -/
structure IstioEndpoint where
  EndpointPort : Nat
deriving DecidableEq, Repr

/-- Modelled from the spec: the classification of a chain, `ListenerProtocol: enum
{HTTP, TCP, …}` (networking.ListenerProtocol is declared outside health.go). -/
inductive ListenerProtocol where
  | ListenerProtocolUnknown
  | ListenerProtocolTCP
  | ListenerProtocolHTTP
  | ListenerProtocolAuto
deriving DecidableEq, Repr

/-- Filter chain under construction (networking.FilterChain): its protocol and its
ordered HTTP filter list. -/
structure FilterChain where
  ListenerProtocol : ListenerProtocol
  HTTP : List HttpFilter
deriving DecidableEq, Repr

/-- Modelled from the spec: the proxy kinds, of which the hook serves only the
sidecar-proxy variant (model.NodeType is declared outside health.go). -/
inductive NodeType where
  | SidecarProxy
  | Router
deriving DecidableEq, Repr

/-- Proxy (model.Proxy): its kind and the addresses it listens on. -/
structure Proxy where
  Type_ : NodeType
  IPAddresses : List String
deriving DecidableEq, Repr

/-- Service instance (model.ServiceInstance) with its endpoint. -/
structure ServiceInstance where
  Endpoint : IstioEndpoint
deriving DecidableEq, Repr

/-- Push context (model.PushContext): only the probe lookup per address is used. -/
structure PushContext where
  WorkloadHealthCheckInfo : String → ProbeList

/-- Input of a plugin hook (plugin.InputParams). -/
structure InputParams where
  Node : Option Proxy
  ServiceInstance : Option ServiceInstance
  Push : PushContext

/-- Filter chain of the listener message (listener.FilterChain); the hook only counts
them. -/
structure XdsFilterChain where
  Name : String
deriving DecidableEq, Repr

/-- Listener message (listener.Listener). -/
structure Listener where
  FilterChains : List XdsFilterChain
deriving DecidableEq, Repr

/-- Objects a hook may change (networking.MutableObjects). -/
structure MutableObjects where
  Listener : Option Listener
  FilterChains : List FilterChain
deriving DecidableEq, Repr

/-- Error value built by fmt.Errorf: the format string and its argument. -/
structure Error where
  format : String
  arg : MutableObjects
deriving DecidableEq, Repr

/-- How a call of the hook ends: it returns (nil or an error), or it panics on the
chain index that is out of range. -/
inductive Outcome where
  | returned (err : Option Error)
  | panicked (index : Nat)
deriving DecidableEq, Repr

/-- External parts used by health.go: the well-known name of the health-check filter
(xdsutil.HealthCheck) and the packing of a configuration message (util.MessageToAny). -/
structure Deps where
  MessageToAny : HealthCheck → Any
  HealthCheck : String

/-! ## The code of health.go -/

/-- Modelled from the spec: `PassThroughMode: true`, the wrapped boolean proto.BoolTrue
(declared outside health.go). -/
def BoolTrue : Option Bool := some true

/-- The function buildHealthCheckFilter: the health-check filter of a probe. -/
def buildHealthCheckFilter (E : Deps) (probe : Probe) : HttpFilter :=
  let config : HealthCheck :=
    { PassThroughMode := BoolTrue
      Headers := [{ Name := ":path"
                    HeaderMatchSpecifier := HeaderMatchSpecifier.ExactMatch probe.Path }] }
  let out : HttpFilter :=
    { Name := E.HealthCheck
      ConfigType := ConfigType.TypedConfig (E.MessageToAny config) }
  out

/-- The function containsHTTPFilter: a linear scan for a deep-equal element. -/
def containsHTTPFilter : List HttpFilter → HttpFilter → Bool
  | [], _ => false
  | item :: array, elem =>
    if item = elem then true else containsHTTPFilter array elem

/-- The function buildHealthCheckFilters: for each probe in order, when the probe has
no port or its port is the endpoint port, build its filter and append it to the chain
unless the chain already contains a deep-equal one. Returns the chain it leaves. -/
def buildHealthCheckFilters (E : Deps) (filterChain : FilterChain) :
    ProbeList → IstioEndpoint → FilterChain
  | [], _ => filterChain
  | probe :: probes, endpoint =>
    if (match probe.Port with
        | none => true
        | some port => decide (port.Port = Int.ofNat endpoint.EndpointPort)) then
      let filter := buildHealthCheckFilter E probe
      if !containsHTTPFilter filterChain.HTTP filter then
        buildHealthCheckFilters E { filterChain with HTTP := filterChain.HTTP ++ [filter] }
          probes endpoint
      else
        buildHealthCheckFilters E filterChain probes endpoint
    else
      buildHealthCheckFilters E filterChain probes endpoint

/-- The inner loop of OnInboundListener over the addresses of the node: one call of
buildHealthCheckFilters per address, each on the chain left by the previous one. -/
def forIPAddresses (E : Deps) (push : PushContext) (endpoint : IstioEndpoint) :
    FilterChain → List String → FilterChain
  | filterChain, [] => filterChain
  | filterChain, ip :: ips =>
    forIPAddresses E push endpoint
      (buildHealthCheckFilters E filterChain (push.WorkloadHealthCheckInfo ip) endpoint) ips

/-- The outer loop of OnInboundListener: the indices i of the listener's filter chains
in order, each used to index the filter chains of the mutable object. -/
def forFilterChains (E : Deps) (push : PushContext) (endpoint : IstioEndpoint)
    (ips : List String) : List Nat → List FilterChain → List FilterChain × Outcome
  | [], chains => (chains, Outcome.returned none)
  | i :: is, chains =>
    match chains[i]? with
    | none => (chains, Outcome.panicked i)
    | some filterChain =>
      if filterChain.ListenerProtocol = ListenerProtocol.ListenerProtocolHTTP then
        forFilterChains E push endpoint ips is
          (chains.set i (forIPAddresses E push endpoint filterChain ips))
      else
        forFilterChains E push endpoint ips is chains

/-- The hook OnInboundListener: the mutable object it leaves and how the call ends. -/
def OnInboundListener (E : Deps) (inp : InputParams) (mutable : MutableObjects) :
    MutableObjects × Outcome :=
  match inp.Node with
  | none => (mutable, Outcome.returned none)
  | some node =>
    if node.Type_ ≠ NodeType.SidecarProxy then
      (mutable, Outcome.returned none)
    else
      match inp.ServiceInstance with
      | none => (mutable, Outcome.returned none)
      | some serviceInstance =>
        match mutable.Listener with
        | none =>
          (mutable, Outcome.returned
            (some { format := "listener not defined in mutable %v", arg := mutable }))
        | some listener =>
          let r := forFilterChains E inp.Push serviceInstance.Endpoint node.IPAddresses
            (List.range listener.FilterChains.length) mutable.FilterChains
          ({ mutable with FilterChains := r.1 }, r.2)

/-! ## Functions that follow the words of the specification -/

/-- Selection rule of the specification: a probe is applicable iff its port is absent
or equals the port of the chain. -/
def applicable (chainPort : Nat) (probe : Probe) : Bool :=
  match probe.Port with
  | none => true
  | some port => decide (port.Port = Int.ofNat chainPort)

/-- Keep the first occurrence of each element of a list, in order. -/
def firstOccurrences {α : Type} [DecidableEq α] : List α → List α
  | [] => []
  | a :: l => a :: (firstOccurrences l).filter (fun b => decide (b ≠ a))

/-- The descriptors of the applicable probes of a list, in probe order. -/
def applicableFilters (E : Deps) (probes : ProbeList) (ep : IstioEndpoint) :
    List HttpFilter :=
  (probes.filter (applicable ep.EndpointPort)).map (buildHealthCheckFilter E)

/-- The filters appended by one pass: the first occurrences of the descriptors of the
applicable probes that the chain does not hold yet. -/
def appended (E : Deps) (fc : FilterChain) (probes : ProbeList) (ep : IstioEndpoint) :
    List HttpFilter :=
  (firstOccurrences (applicableFilters E probes ep)).filter (fun d => decide (d ∉ fc.HTTP))

/-- What one iteration of the outer loop of OnInboundListener does to the chain at its
index: an HTTP chain goes through the loop over the addresses, any other chain stays. -/
def visitFilterChain (E : Deps) (push : PushContext) (endpoint : IstioEndpoint)
    (ips : List String) (filterChain : FilterChain) : FilterChain :=
  if filterChain.ListenerProtocol = ListenerProtocol.ListenerProtocolHTTP then
    forIPAddresses E push endpoint filterChain ips
  else filterChain

/-- Descriptor of the specification for a path: the name is the well-known health-check
filter identifier and the configuration has PassThroughMode true and one exact matcher
of the header :path against the path. -/
def healthCheckDescriptor (E : Deps) (path : String) : HttpFilter :=
  { Name := E.HealthCheck
    ConfigType := ConfigType.TypedConfig (E.MessageToAny
      { PassThroughMode := some true
        Headers := [{ Name := ":path"
                      HeaderMatchSpecifier := HeaderMatchSpecifier.ExactMatch path }] }) }

/-- Probe Matcher of the specification, selectApplicableProbes: the applicable probes
of the list, in their order, nothing else removed. -/
def selectApplicableProbes (probes : ProbeList) (chainPort : Nat) : List Probe :=
  probes.filter (fun probe => applicable chainPort probe)

/-- Filter Chain Mutator of the specification, applyHealthCheckFilters: for each probe
in order, build its descriptor, scan the filters of the chain for a deep-equal one and
append the descriptor when there is none. -/
def applyHealthCheckFilters (E : Deps) (chain : FilterChain)
    (applicableProbes : List Probe) : FilterChain :=
  applicableProbes.foldl
    (fun c probe =>
      if c.HTTP.any (fun existing => decide (existing = healthCheckDescriptor E probe.Path))
      then c
      else { c with HTTP := c.HTTP ++ [healthCheckDescriptor E probe.Path] })
    chain

/-- Modelled from the spec: util.MessageToAny is declared outside health.go; the
specification compares descriptors by their "Config contents", so the packed message
determines the configuration: two configurations with the same packing are the same. -/
def FaithfulPacking (E : Deps) : Prop :=
  ∀ a b : HealthCheck, E.MessageToAny a = E.MessageToAny b → a = b

/-- The characters of a string as numbers. -/
def packString (s : String) : List Nat :=
  s.toList.map Char.toNat

/-- A header match specifier as a tagged value. -/
def packSpecifier : HeaderMatchSpecifier → (List Nat ⊕ List Nat) ⊕ (List Nat ⊕ Bool)
  | HeaderMatchSpecifier.ExactMatch s => Sum.inl (Sum.inl (packString s))
  | HeaderMatchSpecifier.PrefixMatch s => Sum.inl (Sum.inr (packString s))
  | HeaderMatchSpecifier.SuffixMatch s => Sum.inr (Sum.inl (packString s))
  | HeaderMatchSpecifier.PresentMatch b => Sum.inr (Sum.inr b)

/-- A health-check configuration as a value of lists, pairs and sums of numbers. -/
def packHealthCheck (config : HealthCheck) :
    Option Bool × List (List Nat × ((List Nat ⊕ List Nat) ⊕ (List Nat ⊕ Bool))) :=
  (config.PassThroughMode,
    config.Headers.map (fun h => (packString h.Name, packSpecifier h.HeaderMatchSpecifier)))

/-! ## Concrete inputs -/

/-- A concrete choice of the external parts: the name of the filter in the v3 API and a
packing that records the matched header values byte by byte. -/
def exampleDeps : Deps :=
  { MessageToAny := fun config =>
      { TypeUrl := "type.googleapis.com/envoy.extensions.filters.http.health_check.v3.HealthCheck"
        Value := config.Headers.flatMap fun h =>
          match h.HeaderMatchSpecifier with
          | HeaderMatchSpecifier.ExactMatch s => s.toList.map Char.toNat
          | _ => [] }
    HealthCheck := "envoy.filters.http.health_check" }

/-- A probe without a port on the path /healthz. -/
def healthzProbe : Probe := { Port := none, Path := "/healthz" }

/-- A probe on port 8080 with the path /ready. -/
def readyProbe : Probe := { Port := some { Name := "http", Port := 8080 }, Path := "/ready" }

/-- An endpoint on port 8080. -/
def endpoint8080 : IstioEndpoint := { EndpointPort := 8080 }

/-- An endpoint on port 9090. -/
def endpoint9090 : IstioEndpoint := { EndpointPort := 9090 }

/-- An HTTP chain without filters. -/
def emptyHTTPChain : FilterChain :=
  { ListenerProtocol := ListenerProtocol.ListenerProtocolHTTP, HTTP := [] }

/-- A filter placed by an earlier stage. -/
def corsFilter : HttpFilter := { Name := "envoy.filters.http.cors", ConfigType := ConfigType.unset }

/-- An HTTP chain that already holds the same filter twice. -/
def duplicatedChain : FilterChain :=
  { ListenerProtocol := ListenerProtocol.ListenerProtocolHTTP, HTTP := [corsFilter, corsFilter] }

/-- A sidecar proxy that listens on one address. -/
def sidecarNode : Proxy := { Type_ := NodeType.SidecarProxy, IPAddresses := ["10.0.0.1"] }

/-- A router proxy that listens on one address. -/
def routerNode : Proxy := { Type_ := NodeType.Router, IPAddresses := ["10.0.0.1"] }

/-- A push context that resolves every address to the probes /healthz and /ready. -/
def examplePush : PushContext :=
  { WorkloadHealthCheckInfo := fun _ => [healthzProbe, readyProbe] }

/-- A service instance bound to port 8080. -/
def instance8080 : ServiceInstance := { Endpoint := endpoint8080 }

/-- Input of the hook for a sidecar with a bound service instance. -/
def sidecarInput : InputParams :=
  { Node := some sidecarNode, ServiceInstance := some instance8080, Push := examplePush }

/-- Input of the hook without a node. -/
def noNodeInput : InputParams :=
  { Node := none, ServiceInstance := some instance8080, Push := examplePush }

/-- A TCP chain that holds one HTTP filter. -/
def tcpChain : FilterChain :=
  { ListenerProtocol := ListenerProtocol.ListenerProtocolTCP, HTTP := [corsFilter] }

/-- A mutable object without a listener, with one HTTP chain. -/
def noListenerMutable : MutableObjects :=
  { Listener := none, FilterChains := [emptyHTTPChain] }

/-- A mutable object whose listener has no filter chain while the object itself holds
one HTTP chain. -/
def shortListenerMutable : MutableObjects :=
  { Listener := some { FilterChains := [] }, FilterChains := [emptyHTTPChain] }

/-- A mutable object whose listener and chain list agree: an HTTP chain and a TCP chain. -/
def twoChainMutable : MutableObjects :=
  { Listener := some { FilterChains := [{ Name := "http" }, { Name := "tcp" }] }
    FilterChains := [emptyHTTPChain, tcpChain] }

/-- A choice of the external parts whose packing loses nothing: the payload is the
code number of the whole configuration. -/
def faithfulDeps : Deps :=
  { MessageToAny := fun config =>
      { TypeUrl := "type.googleapis.com/envoy.extensions.filters.http.health_check.v3.HealthCheck"
        Value := [Encodable.encode (packHealthCheck config)] }
    HealthCheck := "envoy.filters.http.health_check" }

/-- A mutable object whose listener has two filter chains while the object itself holds
only one chain. -/
def longListenerMutable : MutableObjects :=
  { Listener := some { FilterChains := [{ Name := "http" }, { Name := "tcp" }] }
    FilterChains := [emptyHTTPChain] }

/-- An HTTP chain that holds one filter placed by an earlier stage. -/
def corsChain : FilterChain :=
  { ListenerProtocol := ListenerProtocol.ListenerProtocolHTTP, HTTP := [corsFilter] }

/-! ## Lemmas on the duplicate scan and on one pass of the loop -/

theorem containsHTTPFilter_iff (array : List HttpFilter) (elem : HttpFilter) :
    containsHTTPFilter array elem = true ↔ elem ∈ array := by
  induction array with
  | nil => simp [containsHTTPFilter]
  | cons item array ih =>
    by_cases h : item = elem
    · simp [containsHTTPFilter, h]
    · have h2 : ¬ elem = item := fun e => h e.symm
      simp [containsHTTPFilter, h, h2, ih]

theorem buildHealthCheckFilters_nil (E : Deps) (fc : FilterChain) (ep : IstioEndpoint) :
    buildHealthCheckFilters E fc [] ep = fc := by
  simp [buildHealthCheckFilters]

theorem buildHealthCheckFilters_cons (E : Deps) (fc : FilterChain) (p : Probe)
    (ps : ProbeList) (ep : IstioEndpoint) :
    buildHealthCheckFilters E fc (p :: ps) ep =
      if applicable ep.EndpointPort p = true ∧ buildHealthCheckFilter E p ∉ fc.HTTP then
        buildHealthCheckFilters E
          { fc with HTTP := fc.HTTP ++ [buildHealthCheckFilter E p] } ps ep
      else buildHealthCheckFilters E fc ps ep := by
  rw [buildHealthCheckFilters]
  change (if applicable ep.EndpointPort p = true then
      (if (!containsHTTPFilter fc.HTTP (buildHealthCheckFilter E p)) = true then _ else _)
    else _) = _
  by_cases ha : applicable ep.EndpointPort p = true
  · by_cases hc : buildHealthCheckFilter E p ∈ fc.HTTP
    · have hc2 := (containsHTTPFilter_iff fc.HTTP _).2 hc
      simp [ha, hc, hc2]
    · have hc2 : containsHTTPFilter fc.HTTP (buildHealthCheckFilter E p) = false := by
        cases h : containsHTTPFilter fc.HTTP (buildHealthCheckFilter E p)
        · rfl
        · exact absurd ((containsHTTPFilter_iff fc.HTTP _).1 h) hc
      simp [ha, hc, hc2]
  · simp [ha]

theorem buildHealthCheckFilters_ListenerProtocol (E : Deps) (probes : ProbeList)
    (ep : IstioEndpoint) (fc : FilterChain) :
    (buildHealthCheckFilters E fc probes ep).ListenerProtocol = fc.ListenerProtocol := by
  induction probes generalizing fc with
  | nil => rw [buildHealthCheckFilters_nil]
  | cons p ps ih =>
    rw [buildHealthCheckFilters_cons]
    split
    · rw [ih]
    · rw [ih]

theorem buildHealthCheckFilters_HTTP (E : Deps) (probes : ProbeList)
    (ep : IstioEndpoint) (fc : FilterChain) :
    (buildHealthCheckFilters E fc probes ep).HTTP =
      fc.HTTP ++ (firstOccurrences (applicableFilters E probes ep)).filter
        (fun d => decide (d ∉ fc.HTTP)) := by
  induction probes generalizing fc with
  | nil => simp [buildHealthCheckFilters_nil, applicableFilters, firstOccurrences]
  | cons p ps ih =>
    rw [buildHealthCheckFilters_cons]
    by_cases ha : applicable ep.EndpointPort p = true
    · by_cases hc : buildHealthCheckFilter E p ∈ fc.HTTP
      · simp only [ha, hc, not_true_eq_false, and_false, if_false]
        rw [ih]
        simp only [applicableFilters, List.filter_cons, ha, if_true, List.map_cons,
          firstOccurrences]
        congr 1
        simp only [List.filter_cons, hc, not_true_eq_false, decide_False, List.filter_filter]
        simp only [Bool.false_eq_true, if_false]
        apply List.filter_congr
        intro d _
        by_cases hd : d ∈ fc.HTTP
        · simp [hd]
        · have : d ≠ buildHealthCheckFilter E p := fun e => hd (e ▸ hc)
          simp [hd, this]
      · simp only [ha, hc, not_false_eq_true, and_self, if_true]
        rw [ih]
        simp only [applicableFilters, List.filter_cons, ha, if_true, List.map_cons,
          firstOccurrences, hc, not_false_eq_true, decide_True, List.filter_filter,
          List.append_assoc, List.singleton_append]
        congr 2
        apply List.filter_congr
        intro d _
        simp [List.mem_append, not_or, Bool.and_comm]
    · rw [if_neg (fun h => ha h.1), ih]
      simp [applicableFilters, List.filter_cons, ha]

/-! ## Lemmas on first occurrences -/

theorem mem_firstOccurrences {α : Type} [DecidableEq α] (l : List α) (b : α) :
    b ∈ firstOccurrences l ↔ b ∈ l := by
  induction l with
  | nil => simp [firstOccurrences]
  | cons a l ih =>
    by_cases h : b = a
    · simp [firstOccurrences, h]
    · simp [firstOccurrences, List.mem_filter, ih, h]

theorem nodup_firstOccurrences {α : Type} [DecidableEq α] (l : List α) :
    (firstOccurrences l).Nodup := by
  induction l with
  | nil => simp [firstOccurrences]
  | cons a l ih =>
    simp only [firstOccurrences, List.nodup_cons]
    exact ⟨by simp [List.mem_filter], ih.filter _⟩

theorem firstOccurrences_sublist {α : Type} [DecidableEq α] (l : List α) :
    (firstOccurrences l).Sublist l := by
  induction l with
  | nil => simp [firstOccurrences]
  | cons a l ih =>
    simp only [firstOccurrences]
    exact ((List.filter_sublist _).trans ih).cons₂ a

/-! ## Lemmas on the filters of the applicable probes -/

theorem applicable_iff (chainPort : Nat) (p : Probe) :
    applicable chainPort p = true ↔
      (p.Port = none ∨ ∃ q, p.Port = some q ∧ q.Port = Int.ofNat chainPort) := by
  unfold applicable
  cases h : p.Port with
  | none => simp
  | some q => simp

theorem mem_applicableFilters (E : Deps) (probes : ProbeList) (ep : IstioEndpoint)
    (p : Probe) (hp : p ∈ probes) (ha : applicable ep.EndpointPort p = true) :
    buildHealthCheckFilter E p ∈ applicableFilters E probes ep := by
  unfold applicableFilters
  exact List.mem_map.2 ⟨p, List.mem_filter.2 ⟨hp, ha⟩, rfl⟩

theorem buildHealthCheckFilters_HTTP_appended (E : Deps) (fc : FilterChain)
    (probes : ProbeList) (ep : IstioEndpoint) :
    (buildHealthCheckFilters E fc probes ep).HTTP = fc.HTTP ++ appended E fc probes ep :=
  buildHealthCheckFilters_HTTP E probes ep fc

theorem nodup_appended (E : Deps) (fc : FilterChain) (probes : ProbeList)
    (ep : IstioEndpoint) : (appended E fc probes ep).Nodup :=
  (nodup_firstOccurrences _).filter _

theorem not_mem_of_mem_appended (E : Deps) (fc : FilterChain) (probes : ProbeList)
    (ep : IstioEndpoint) (d : HttpFilter) (hd : d ∈ appended E fc probes ep) :
    d ∉ fc.HTTP := by
  unfold appended at hd
  simpa using (List.mem_filter.1 hd).2

theorem mem_buildHealthCheckFilters (E : Deps) (fc : FilterChain) (probes : ProbeList)
    (ep : IstioEndpoint) (p : Probe) (hp : p ∈ probes)
    (ha : applicable ep.EndpointPort p = true) :
    buildHealthCheckFilter E p ∈ (buildHealthCheckFilters E fc probes ep).HTTP := by
  rw [buildHealthCheckFilters_HTTP_appended, List.mem_append]
  by_cases hc : buildHealthCheckFilter E p ∈ fc.HTTP
  · exact Or.inl hc
  · right
    unfold appended
    refine List.mem_filter.2 ⟨?_, by simpa using hc⟩
    exact (mem_firstOccurrences _ _).2 (mem_applicableFilters E probes ep p hp ha)

theorem FilterChain_eq (a b : FilterChain) (h1 : a.ListenerProtocol = b.ListenerProtocol)
    (h2 : a.HTTP = b.HTTP) : a = b := by
  cases a; cases b; simp_all

theorem appended_eq_nil (E : Deps) (fc : FilterChain) (probes : ProbeList)
    (ep : IstioEndpoint)
    (h : ∀ d ∈ applicableFilters E probes ep, d ∈ fc.HTTP) :
    appended E fc probes ep = [] := by
  unfold appended
  rw [List.filter_eq_nil_iff]
  intro d hd
  have := h d ((mem_firstOccurrences _ _).1 hd)
  simpa using this

theorem buildHealthCheckFilters_twice (E : Deps) (fc : FilterChain) (probes : ProbeList)
    (ep : IstioEndpoint) :
    buildHealthCheckFilters E (buildHealthCheckFilters E fc probes ep) probes ep =
      buildHealthCheckFilters E fc probes ep := by
  apply FilterChain_eq
  · rw [buildHealthCheckFilters_ListenerProtocol]
  · rw [buildHealthCheckFilters_HTTP_appended E (buildHealthCheckFilters E fc probes ep),
      appended_eq_nil, List.append_nil]
    intro d hd
    unfold applicableFilters at hd
    obtain ⟨p, hp, rfl⟩ := List.mem_map.1 hd
    have hp2 := List.mem_filter.1 hp
    exact mem_buildHealthCheckFilters E fc probes ep p hp2.1 hp2.2

theorem buildHealthCheckFilters_append (E : Deps) (ps qs : ProbeList) (ep : IstioEndpoint)
    (fc : FilterChain) :
    buildHealthCheckFilters E fc (ps ++ qs) ep =
      buildHealthCheckFilters E (buildHealthCheckFilters E fc ps ep) qs ep := by
  induction ps generalizing fc with
  | nil => simp [buildHealthCheckFilters_nil]
  | cons p ps ih =>
    rw [List.cons_append, buildHealthCheckFilters_cons, buildHealthCheckFilters_cons]
    split
    · rw [ih]
    · rw [ih]

/-! ## Properties of buildHealthCheckFilters -/

/-- C1. Idempotence: a second call of buildHealthCheckFilters with the same probe list
and endpoint leaves the chain, and so its HTTP filter list (elements, order, length),
exactly as the first call left it, whatever the filter list was at the start. -/
theorem buildHealthCheckFilters_idempotent (E : Deps) (fc : FilterChain)
    (probes : ProbeList) (ep : IstioEndpoint) :
    (buildHealthCheckFilters E (buildHealthCheckFilters E fc probes ep) probes ep).HTTP =
        (buildHealthCheckFilters E fc probes ep).HTTP ∧
      buildHealthCheckFilters E (buildHealthCheckFilters E fc probes ep) probes ep =
        buildHealthCheckFilters E fc probes ep :=
  ⟨congrArg FilterChain.HTTP (buildHealthCheckFilters_twice E fc probes ep),
    buildHealthCheckFilters_twice E fc probes ep⟩

/-- C2. Port filtering: (1) the descriptor of every probe of the list whose Port is
absent or equals the endpoint port is in the HTTP filter list after the call, and
(2) a probe whose Port is present and differs from the endpoint port can be removed
from the probe list, wherever it stands, without changing the resulting chain. -/
theorem buildHealthCheckFilters_port_filtering (E : Deps) (fc : FilterChain)
    (ep : IstioEndpoint) :
    (∀ (probes : ProbeList) (p : Probe), p ∈ probes →
        (p.Port = none ∨ ∃ q, p.Port = some q ∧ q.Port = Int.ofNat ep.EndpointPort) →
        buildHealthCheckFilter E p ∈ (buildHealthCheckFilters E fc probes ep).HTTP) ∧
      (∀ (ps qs : ProbeList) (p : Probe) (q : Port), p.Port = some q →
        q.Port ≠ Int.ofNat ep.EndpointPort →
        buildHealthCheckFilters E fc (ps ++ p :: qs) ep =
          buildHealthCheckFilters E fc (ps ++ qs) ep) := by
  constructor
  · intro probes p hp ha
    exact mem_buildHealthCheckFilters E fc probes ep p hp ((applicable_iff _ _).2 ha)
  · intro ps qs p q hq hne
    have hna : ¬ applicable ep.EndpointPort p = true := by
      rw [applicable_iff]
      rintro (h | ⟨q2, h1, h2⟩)
      · rw [hq] at h
        exact Option.noConfusion h
      · rw [hq] at h1
        cases h1
        exact hne h2
    rw [buildHealthCheckFilters_append, buildHealthCheckFilters_append,
      buildHealthCheckFilters_cons, if_neg (fun h => hna h.1)]

/-- Witness of C2 on the probes /healthz (no port) and /ready (port 8080) with the
endpoint port 9090. -/
theorem buildHealthCheckFilters_port_filtering_witness :
    buildHealthCheckFilter exampleDeps healthzProbe ∈
        (buildHealthCheckFilters exampleDeps emptyHTTPChain [healthzProbe, readyProbe]
          endpoint9090).HTTP ∧
      buildHealthCheckFilters exampleDeps emptyHTTPChain ([healthzProbe] ++ readyProbe :: [])
          endpoint9090 =
        buildHealthCheckFilters exampleDeps emptyHTTPChain ([healthzProbe] ++ []) endpoint9090 :=
  ⟨(buildHealthCheckFilters_port_filtering exampleDeps emptyHTTPChain endpoint9090).1
      [healthzProbe, readyProbe] healthzProbe (by decide) (Or.inl rfl),
    (buildHealthCheckFilters_port_filtering exampleDeps emptyHTTPChain endpoint9090).2
      [healthzProbe] [] readyProbe { Name := "http", Port := 8080 } rfl (by decide)⟩

/-- C3, as stated, fails: on a chain that already holds the same filter twice the
resulting HTTP filter list still holds it at two different positions. -/
theorem buildHealthCheckFilters_duplicates_remain :
    (buildHealthCheckFilters exampleDeps duplicatedChain [healthzProbe] endpoint8080).HTTP =
        [corsFilter, corsFilter, buildHealthCheckFilter exampleDeps healthzProbe] ∧
      ¬ (buildHealthCheckFilters exampleDeps duplicatedChain [healthzProbe]
          endpoint8080).HTTP.Nodup := by
  decide

/-- C3, amended. Two equal descriptors at two different positions i < j of the
resulting HTTP filter list are both pre-existing: j lies below the length of the filter
list before the call. So a filter appended by the call equals no other element. -/
theorem buildHealthCheckFilters_duplicates_preexisting (E : Deps) (fc : FilterChain)
    (probes : ProbeList) (ep : IstioEndpoint) (i j : Nat) (hij : i < j)
    (hj : j < (buildHealthCheckFilters E fc probes ep).HTTP.length)
    (heq : (buildHealthCheckFilters E fc probes ep).HTTP[i]? =
      (buildHealthCheckFilters E fc probes ep).HTTP[j]?) :
    j < fc.HTTP.length := by
  by_contra hge
  have hge : fc.HTTP.length ≤ j := Nat.le_of_not_lt hge
  rw [buildHealthCheckFilters_HTTP_appended] at heq hj
  rw [List.length_append] at hj
  have hj2 : j - fc.HTTP.length < (appended E fc probes ep).length := by omega
  rw [List.getElem?_append_right hge] at heq
  obtain ⟨d, hd⟩ : ∃ d, (appended E fc probes ep)[j - fc.HTTP.length]? = some d :=
    ⟨_, List.getElem?_eq_getElem hj2⟩
  rw [hd] at heq
  by_cases hi : i < fc.HTTP.length
  · rw [List.getElem?_append_left hi] at heq
    have h1 : d ∈ fc.HTTP := List.mem_iff_getElem?.2 ⟨i, heq⟩
    have h2 : d ∈ appended E fc probes ep := List.mem_iff_getElem?.2 ⟨_, hd⟩
    exact not_mem_of_mem_appended E fc probes ep d h2 h1
  · have hi : fc.HTTP.length ≤ i := Nat.le_of_not_lt hi
    rw [List.getElem?_append_right hi] at heq
    have hnd := List.nodup_iff_getElem?_ne_getElem?.1 (nodup_appended E fc probes ep)
      (i - fc.HTTP.length) (j - fc.HTTP.length) (by omega) hj2
    exact hnd (heq.trans hd.symm)

/-- Witness of the amended C3: on the chain that holds the same filter at the
positions 0 and 1, the two equal positions lie below the initial length 2. -/
theorem buildHealthCheckFilters_duplicates_preexisting_witness :
    1 < duplicatedChain.HTTP.length :=
  buildHealthCheckFilters_duplicates_preexisting exampleDeps duplicatedChain [healthzProbe]
    endpoint8080 0 1 (by decide) (by decide) (by decide)

/-- C4. Frame of the pre-existing filters: the HTTP filter list before the call is a
prefix of the list after it, so every pre-existing filter keeps its position and
every new filter stands after all of them; the protocol of the chain is unchanged. -/
theorem buildHealthCheckFilters_preserves_existing (E : Deps) (fc : FilterChain)
    (probes : ProbeList) (ep : IstioEndpoint) :
    fc.HTTP <+: (buildHealthCheckFilters E fc probes ep).HTTP ∧
      (∀ i, i < fc.HTTP.length →
        (buildHealthCheckFilters E fc probes ep).HTTP[i]? = fc.HTTP[i]?) ∧
      (buildHealthCheckFilters E fc probes ep).ListenerProtocol = fc.ListenerProtocol := by
  refine ⟨?_, ?_, buildHealthCheckFilters_ListenerProtocol E probes ep fc⟩
  · rw [buildHealthCheckFilters_HTTP_appended]
    exact List.prefix_append _ _
  · intro i hi
    rw [buildHealthCheckFilters_HTTP_appended, List.getElem?_append_left hi]

/-- Witness of C4 at position 0 of the chain that holds two filters. -/
theorem buildHealthCheckFilters_preserves_existing_witness :
    (buildHealthCheckFilters exampleDeps duplicatedChain [healthzProbe] endpoint8080).HTTP[0]? =
      duplicatedChain.HTTP[0]? :=
  (buildHealthCheckFilters_preserves_existing exampleDeps duplicatedChain [healthzProbe]
    endpoint8080).2.1 0 (by decide)

/-- C5. The result of buildHealthCheckFilters is the pre-existing HTTP filter list F
followed by the descriptors of the applicable probes (Port absent or equal to the
endpoint port) in probe-list order, of which only the first occurrence of each is kept
and those equal to an element of F are dropped. -/
theorem buildHealthCheckFilters_appends_in_probe_order (E : Deps) (fc : FilterChain)
    (probes : ProbeList) (ep : IstioEndpoint) :
    (buildHealthCheckFilters E fc probes ep).HTTP =
      fc.HTTP ++
        (firstOccurrences
          ((probes.filter (fun p => applicable ep.EndpointPort p)).map
            (buildHealthCheckFilter E))).filter
          (fun d => decide (d ∉ fc.HTTP)) :=
  buildHealthCheckFilters_HTTP E probes ep fc

/-- C6. When the chain does not hold the health-check descriptor for the path X and
the probe list has at least one applicable probe with the path X (in particular when
it consists of one or more applicable probes that share the path X and the port), the
HTTP filter list after the call holds that descriptor exactly once. -/
theorem buildHealthCheckFilters_one_filter_per_path (E : Deps) (fc : FilterChain)
    (probes : ProbeList) (ep : IstioEndpoint) (X : String)
    (hfree : buildHealthCheckFilter E { Port := none, Path := X } ∉ fc.HTTP)
    (hprobe : ∃ p ∈ probes, p.Path = X ∧
      (p.Port = none ∨ ∃ q, p.Port = some q ∧ q.Port = Int.ofNat ep.EndpointPort)) :
    (buildHealthCheckFilters E fc probes ep).HTTP.count
      (buildHealthCheckFilter E { Port := none, Path := X }) = 1 := by
  obtain ⟨p, hp, hX, ha⟩ := hprobe
  have hd : buildHealthCheckFilter E { Port := none, Path := X } =
      buildHealthCheckFilter E p := by
    subst hX
    rfl
  rw [hd] at hfree ⊢
  have ha2 := (applicable_iff ep.EndpointPort p).2 ha
  have hmem : buildHealthCheckFilter E p ∈ appended E fc probes ep := by
    unfold appended
    refine List.mem_filter.2 ⟨?_, by simpa using hfree⟩
    exact (mem_firstOccurrences _ _).2 (mem_applicableFilters E probes ep p hp ha2)
  rw [buildHealthCheckFilters_HTTP_appended, List.count_append,
    List.count_eq_zero_of_not_mem hfree,
    List.count_eq_one_of_mem (nodup_appended E fc probes ep) hmem]

/-- Witness of C6: two probes on port 8080 with the path /ready give one filter. -/
theorem buildHealthCheckFilters_one_filter_per_path_witness :
    (buildHealthCheckFilters exampleDeps emptyHTTPChain [readyProbe, readyProbe]
        endpoint8080).HTTP.count
      (buildHealthCheckFilter exampleDeps { Port := none, Path := "/ready" }) = 1 :=
  buildHealthCheckFilters_one_filter_per_path exampleDeps emptyHTTPChain
    [readyProbe, readyProbe] endpoint8080 "/ready" (by decide)
    ⟨readyProbe, by decide, rfl, Or.inr ⟨{ Name := "http", Port := 8080 }, rfl, rfl⟩⟩

/-! ## Lemmas on the loops of OnInboundListener -/

theorem forIPAddresses_ListenerProtocol (E : Deps) (push : PushContext)
    (ep : IstioEndpoint) (ips : List String) (fc : FilterChain) :
    (forIPAddresses E push ep fc ips).ListenerProtocol = fc.ListenerProtocol := by
  induction ips generalizing fc with
  | nil => simp [forIPAddresses]
  | cons ip ips ih =>
    rw [forIPAddresses, ih, buildHealthCheckFilters_ListenerProtocol]

theorem forIPAddresses_mem_of_mem (E : Deps) (push : PushContext) (ep : IstioEndpoint)
    (ips : List String) (fc : FilterChain) (d : HttpFilter) (hd : d ∈ fc.HTTP) :
    d ∈ (forIPAddresses E push ep fc ips).HTTP := by
  induction ips generalizing fc with
  | nil => simpa [forIPAddresses] using hd
  | cons ip ips ih =>
    rw [forIPAddresses]
    apply ih
    rw [buildHealthCheckFilters_HTTP_appended]
    exact List.mem_append_left _ hd

theorem forIPAddresses_mem (E : Deps) (push : PushContext) (ep : IstioEndpoint)
    (ips : List String) (fc : FilterChain) (ip : String) (hip : ip ∈ ips) (p : Probe)
    (hp : p ∈ push.WorkloadHealthCheckInfo ip) (ha : applicable ep.EndpointPort p = true) :
    buildHealthCheckFilter E p ∈ (forIPAddresses E push ep fc ips).HTTP := by
  induction ips generalizing fc with
  | nil => exact absurd hip (List.not_mem_nil _)
  | cons ip2 ips ih =>
    rw [forIPAddresses]
    rcases List.mem_cons.1 hip with h | h
    · subst h
      apply forIPAddresses_mem_of_mem
      exact mem_buildHealthCheckFilters E fc _ ep p hp ha
    · exact ih _ h

theorem visitFilterChain_ListenerProtocol (E : Deps) (push : PushContext)
    (ep : IstioEndpoint) (ips : List String) (fc : FilterChain) :
    (visitFilterChain E push ep ips fc).ListenerProtocol = fc.ListenerProtocol := by
  unfold visitFilterChain
  split
  · rw [forIPAddresses_ListenerProtocol]
  · rfl

theorem forFilterChains_getElem? (E : Deps) (push : PushContext) (ep : IstioEndpoint)
    (ips : List String) (k s : Nat) (chains : List FilterChain) (j : Nat) :
    (forFilterChains E push ep ips (List.range' s k) chains).1[j]? =
      if s ≤ j ∧ j < s + k then (chains[j]?).map (visitFilterChain E push ep ips)
      else chains[j]? := by
  induction k generalizing s chains with
  | zero =>
    have h0 : ¬ (s ≤ j ∧ j < s + 0) := by omega
    rw [if_neg h0, List.range'_zero, forFilterChains]
  | succ k ih =>
    rw [List.range'_succ, forFilterChains]
    cases h : chains[s]? with
    | none =>
      have hlen : chains.length ≤ s := List.getElem?_eq_none_iff.1 h
      simp only
      split
      · rename_i hc
        have : chains[j]? = none := List.getElem?_eq_none_iff.2 (by omega)
        rw [this]
        rfl
      · rfl
    | some fc =>
      have hlen : s < chains.length := by
        by_contra hn
        rw [List.getElem?_eq_none_iff.2 (Nat.le_of_not_lt hn)] at h
        exact Option.noConfusion h
      simp only
      by_cases hP : fc.ListenerProtocol = ListenerProtocol.ListenerProtocolHTTP
      · rw [if_pos hP, ih, List.getElem?_set]
        by_cases hjs : s = j
        · subst hjs
          have h1 : ¬ (s + 1 ≤ s ∧ s < s + 1 + k) := by omega
          have h2 : s ≤ s ∧ s < s + (k + 1) := by omega
          rw [if_neg h1, if_pos h2, if_pos rfl, if_pos hlen, h]
          simp [visitFilterChain, hP]
        · rw [if_neg hjs]
          by_cases hc : s + 1 ≤ j ∧ j < s + 1 + k
          · have h2 : s ≤ j ∧ j < s + (k + 1) := by omega
            rw [if_pos hc, if_pos h2]
          · have h2 : ¬ (s ≤ j ∧ j < s + (k + 1)) := by omega
            rw [if_neg hc, if_neg h2]
      · rw [if_neg hP, ih]
        by_cases hjs : s = j
        · subst hjs
          have h1 : ¬ (s + 1 ≤ s ∧ s < s + 1 + k) := by omega
          have h2 : s ≤ s ∧ s < s + (k + 1) := by omega
          rw [if_neg h1, if_pos h2, h]
          simp [visitFilterChain, hP]
        · by_cases hc : s + 1 ≤ j ∧ j < s + 1 + k
          · have h2 : s ≤ j ∧ j < s + (k + 1) := by omega
            rw [if_pos hc, if_pos h2]
          · have h2 : ¬ (s ≤ j ∧ j < s + (k + 1)) := by omega
            rw [if_neg hc, if_neg h2]

theorem forFilterChains_length (E : Deps) (push : PushContext) (ep : IstioEndpoint)
    (ips : List String) (is : List Nat) (chains : List FilterChain) :
    (forFilterChains E push ep ips is chains).1.length = chains.length := by
  induction is generalizing chains with
  | nil => simp [forFilterChains]
  | cons i is ih =>
    rw [forFilterChains]
    cases h : chains[i]? with
    | none => rfl
    | some fc =>
      simp only
      split
      · rw [ih, List.length_set]
      · rw [ih]

theorem OnInboundListener_loop (E : Deps) (inp : InputParams) (mutable : MutableObjects)
    (node : Proxy) (si : ServiceInstance) (listener : Listener)
    (hn : inp.Node = some node) (ht : node.Type_ = NodeType.SidecarProxy)
    (hs : inp.ServiceInstance = some si) (hl : mutable.Listener = some listener) :
    OnInboundListener E inp mutable =
      ({ mutable with
          FilterChains := (forFilterChains E inp.Push si.Endpoint node.IPAddresses
            (List.range' 0 listener.FilterChains.length) mutable.FilterChains).1 },
        (forFilterChains E inp.Push si.Endpoint node.IPAddresses
            (List.range' 0 listener.FilterChains.length) mutable.FilterChains).2) := by
  unfold OnInboundListener
  simp only [hn, ht, hs, hl, ne_eq, not_true_eq_false, if_false, List.range_eq_range']

theorem OnInboundListener_cases (E : Deps) (inp : InputParams) (mutable : MutableObjects) :
    (OnInboundListener E inp mutable).1 = mutable ∨
      ∃ node si listener, inp.Node = some node ∧ node.Type_ = NodeType.SidecarProxy ∧
        inp.ServiceInstance = some si ∧ mutable.Listener = some listener := by
  cases hn : inp.Node with
  | none => left; simp [OnInboundListener, hn]
  | some node =>
    by_cases ht : node.Type_ = NodeType.SidecarProxy
    · cases hs : inp.ServiceInstance with
      | none => left; simp [OnInboundListener, hn, ht, hs]
      | some si =>
        cases hl : mutable.Listener with
        | none => left; simp [OnInboundListener, hn, ht, hs, hl]
        | some listener => exact Or.inr ⟨node, si, listener, rfl, ht, rfl, rfl⟩
    · left; simp [OnInboundListener, hn, ht]

/-! ## Properties of OnInboundListener -/

/-- C7, as stated, fails: without a node the hook returns success although the
listener of the mutable object is null. -/
theorem OnInboundListener_null_listener_without_node :
    noListenerMutable.Listener = none ∧
      OnInboundListener exampleDeps noNodeInput noListenerMutable =
        (noListenerMutable, Outcome.returned none) := by
  decide

/-- C7, amended. When the listener of the mutable object is null the hook leaves the
mutable object, and so every filter chain, unchanged; it returns the error
listener-not-defined when the node is present, is a sidecar and a service instance is
bound, and it returns success in every other case. -/
theorem OnInboundListener_missing_listener (E : Deps) (inp : InputParams)
    (mutable : MutableObjects) (hl : mutable.Listener = none) :
    (OnInboundListener E inp mutable).1 = mutable ∧
      ((∃ node si, inp.Node = some node ∧ node.Type_ = NodeType.SidecarProxy ∧
          inp.ServiceInstance = some si) →
        (OnInboundListener E inp mutable).2 = Outcome.returned
          (some { format := "listener not defined in mutable %v", arg := mutable })) ∧
      (¬ (∃ node si, inp.Node = some node ∧ node.Type_ = NodeType.SidecarProxy ∧
          inp.ServiceInstance = some si) →
        (OnInboundListener E inp mutable).2 = Outcome.returned none) := by
  refine ⟨?_, ?_, ?_⟩
  · rcases OnInboundListener_cases E inp mutable with h | ⟨_, _, listener, _, _, _, h⟩
    · exact h
    · rw [hl] at h
      exact Option.noConfusion h
  · rintro ⟨node, si, hn, ht, hs⟩
    simp [OnInboundListener, hn, ht, hs, hl]
  · intro hno
    cases hn : inp.Node with
    | none => simp [OnInboundListener, hn]
    | some node =>
      by_cases ht : node.Type_ = NodeType.SidecarProxy
      · cases hs : inp.ServiceInstance with
        | none => simp [OnInboundListener, hn, ht, hs]
        | some si => exact absurd ⟨node, si, hn, ht, hs⟩ hno
      · simp [OnInboundListener, hn, ht]

/-- Witness of the amended C7: a sidecar with a bound service instance and a null
listener gets the error and an unchanged mutable object. -/
theorem OnInboundListener_missing_listener_witness :
    (OnInboundListener exampleDeps sidecarInput noListenerMutable).1 = noListenerMutable ∧
      (OnInboundListener exampleDeps sidecarInput noListenerMutable).2 = Outcome.returned
        (some { format := "listener not defined in mutable %v", arg := noListenerMutable }) :=
  ⟨(OnInboundListener_missing_listener exampleDeps sidecarInput noListenerMutable rfl).1,
    (OnInboundListener_missing_listener exampleDeps sidecarInput noListenerMutable rfl).2.1
      ⟨sidecarNode, instance8080, rfl, rfl, rfl⟩⟩

/-- C8. Legitimate no-ops: when the node is absent, or its type is not the sidecar
proxy, or no service instance is bound, the hook returns success and leaves the mutable
object, and so every filter chain, unchanged, whatever the listener, the chains and
the probes are. -/
theorem OnInboundListener_noop (E : Deps) (inp : InputParams) (mutable : MutableObjects)
    (h : inp.Node = none ∨
      (∃ node, inp.Node = some node ∧ node.Type_ ≠ NodeType.SidecarProxy) ∨
      inp.ServiceInstance = none) :
    OnInboundListener E inp mutable = (mutable, Outcome.returned none) := by
  rcases h with hn | ⟨node, hn, ht⟩ | hs
  · simp [OnInboundListener, hn]
  · simp [OnInboundListener, hn, ht]
  · cases hn : inp.Node with
    | none => simp [OnInboundListener, hn]
    | some node =>
      by_cases ht : node.Type_ = NodeType.SidecarProxy
      · simp [OnInboundListener, hn, ht, hs]
      · simp [OnInboundListener, hn, ht]

/-- Witness of C8: a router proxy, with a listener and chains that a sidecar would get
filters on. -/
theorem OnInboundListener_noop_witness :
    OnInboundListener exampleDeps
        { Node := some routerNode, ServiceInstance := some instance8080, Push := examplePush }
        twoChainMutable =
      (twoChainMutable, Outcome.returned none) :=
  OnInboundListener_noop exampleDeps
    { Node := some routerNode, ServiceInstance := some instance8080, Push := examplePush }
    twoChainMutable (Or.inr (Or.inl ⟨routerNode, rfl, by decide⟩))

/-- C9, as stated, fails: for a sidecar with a bound service instance and a non-null
listener that has no filter chain, the HTTP chain of the mutable object is left without
the descriptor of the applicable probe /healthz. -/
theorem OnInboundListener_chain_beyond_listener :
    sidecarInput.Node = some sidecarNode ∧
      sidecarNode.Type_ = NodeType.SidecarProxy ∧
      sidecarInput.ServiceInstance = some instance8080 ∧
      shortListenerMutable.Listener = some { FilterChains := [] } ∧
      (OnInboundListener exampleDeps sidecarInput shortListenerMutable).1.FilterChains =
        [emptyHTTPChain] ∧
      emptyHTTPChain.ListenerProtocol = ListenerProtocol.ListenerProtocolHTTP ∧
      "10.0.0.1" ∈ sidecarNode.IPAddresses ∧
      healthzProbe ∈ sidecarInput.Push.WorkloadHealthCheckInfo "10.0.0.1" ∧
      healthzProbe.Port = none ∧
      buildHealthCheckFilter exampleDeps healthzProbe ∉ emptyHTTPChain.HTTP := by
  decide

/-- C9, amended. For a sidecar node, a bound service instance and a non-null listener,
in the state the hook leaves every filter chain of the mutable object that stands at
an index below the number of filter chains of the listener and whose protocol is HTTP
holds, for every address of the node and every probe of that address that is
applicable to the endpoint port (Port absent or equal), the health-check descriptor of
the probe. -/
theorem OnInboundListener_covers_HTTP_chains (E : Deps) (inp : InputParams)
    (mutable : MutableObjects) (node : Proxy) (si : ServiceInstance) (listener : Listener)
    (hn : inp.Node = some node) (ht : node.Type_ = NodeType.SidecarProxy)
    (hs : inp.ServiceInstance = some si) (hl : mutable.Listener = some listener)
    (i : Nat) (hi : i < listener.FilterChains.length) (chain : FilterChain)
    (hchain : (OnInboundListener E inp mutable).1.FilterChains[i]? = some chain)
    (hP : chain.ListenerProtocol = ListenerProtocol.ListenerProtocolHTTP)
    (ip : String) (hip : ip ∈ node.IPAddresses) (p : Probe)
    (hp : p ∈ inp.Push.WorkloadHealthCheckInfo ip)
    (ha : p.Port = none ∨
      ∃ q, p.Port = some q ∧ q.Port = Int.ofNat si.Endpoint.EndpointPort) :
    buildHealthCheckFilter E p ∈ chain.HTTP := by
  rw [OnInboundListener_loop E inp mutable node si listener hn ht hs hl] at hchain
  simp only at hchain
  rw [forFilterChains_getElem?, if_pos ⟨Nat.zero_le _, by omega⟩] at hchain
  obtain ⟨fc, _, hfc⟩ := Option.map_eq_some'.1 hchain
  subst hfc
  rw [visitFilterChain_ListenerProtocol] at hP
  rw [visitFilterChain, if_pos hP]
  exact forIPAddresses_mem E inp.Push si.Endpoint node.IPAddresses fc ip hip p hp
    ((applicable_iff _ _).2 ha)

/-- Witness of the amended C9: the HTTP chain at index 0 of a mutable object whose
listener has two filter chains holds the descriptor of /healthz after the hook. -/
theorem OnInboundListener_covers_HTTP_chains_witness :
    ∃ chain, (OnInboundListener exampleDeps sidecarInput twoChainMutable).1.FilterChains[0]? =
        some chain ∧
      buildHealthCheckFilter exampleDeps healthzProbe ∈ chain.HTTP :=
  ⟨buildHealthCheckFilters exampleDeps emptyHTTPChain [healthzProbe, readyProbe] endpoint8080,
    by decide,
    OnInboundListener_covers_HTTP_chains exampleDeps sidecarInput twoChainMutable sidecarNode
      instance8080 { FilterChains := [{ Name := "http" }, { Name := "tcp" }] } rfl rfl rfl rfl
      0 (by decide) _ (by decide) (by decide) "10.0.0.1" (by decide) healthzProbe (by decide)
      (Or.inl rfl)⟩

/-- C10. Non-HTTP chains are never mutated: the hook keeps the number of filter chains
of the mutable object, and a chain whose protocol is not HTTP is the same chain, with
the same HTTP filter list, at the same index before and after the call, whatever the
probes are and however the call ends. -/
theorem OnInboundListener_non_HTTP_unchanged (E : Deps) (inp : InputParams)
    (mutable : MutableObjects) :
    (OnInboundListener E inp mutable).1.FilterChains.length = mutable.FilterChains.length ∧
      (∀ (i : Nat) (chain : FilterChain), mutable.FilterChains[i]? = some chain →
        chain.ListenerProtocol ≠ ListenerProtocol.ListenerProtocolHTTP →
        (OnInboundListener E inp mutable).1.FilterChains[i]? = some chain) ∧
      (∀ (i : Nat) (chain : FilterChain),
        (OnInboundListener E inp mutable).1.FilterChains[i]? = some chain →
        chain.ListenerProtocol ≠ ListenerProtocol.ListenerProtocolHTTP →
        mutable.FilterChains[i]? = some chain) := by
  rcases OnInboundListener_cases E inp mutable with h | ⟨node, si, listener, hn, ht, hs, hl⟩
  · rw [h]
    exact ⟨rfl, fun _ _ h _ => h, fun _ _ h _ => h⟩
  · rw [OnInboundListener_loop E inp mutable node si listener hn ht hs hl]
    simp only
    refine ⟨forFilterChains_length _ _ _ _ _ _, ?_, ?_⟩
    · intro i chain hc hP
      rw [forFilterChains_getElem?, hc]
      split
      · simp [visitFilterChain, hP]
      · rfl
    · intro i chain hc hP
      rw [forFilterChains_getElem?] at hc
      split at hc
      · obtain ⟨fc, hfc, hv⟩ := Option.map_eq_some'.1 hc
        subst hv
        rw [visitFilterChain_ListenerProtocol] at hP
        rw [hfc, visitFilterChain, if_neg hP]
      · exact hc

/-- Witness of C10: the TCP chain at index 1 is the same after the hook ran for a
sidecar with probes. -/
theorem OnInboundListener_non_HTTP_unchanged_witness :
    (OnInboundListener exampleDeps sidecarInput twoChainMutable).1.FilterChains[1]? =
      some tcpChain :=
  (OnInboundListener_non_HTTP_unchanged exampleDeps sidecarInput twoChainMutable).2.1
    1 tcpChain rfl (by decide)

/-! ## Lemmas on the packing and on the outcome of the loop -/

theorem packString_injective : Function.Injective packString := by
  intro a b h
  unfold packString at h
  have hc : Function.Injective Char.toNat := by
    intro x y hxy
    rw [← Char.ofNat_toNat x, ← Char.ofNat_toNat y, hxy]
  exact String.ext (List.map_injective_iff.2 hc h)

theorem packSpecifier_injective : Function.Injective packSpecifier := by
  intro a b h
  cases a <;> cases b <;> simp [packSpecifier] at h <;>
    first
    | exact congrArg _ (packString_injective h)
    | exact congrArg _ h

theorem packHealthCheck_injective : Function.Injective packHealthCheck := by
  intro a b h
  unfold packHealthCheck at h
  obtain ⟨h1, h2⟩ := Prod.mk.inj h
  have hinj : Function.Injective
      (fun h : HeaderMatcher => (packString h.Name, packSpecifier h.HeaderMatchSpecifier)) := by
    intro x y hxy
    obtain ⟨hx1, hx2⟩ := Prod.mk.inj hxy
    cases x; cases y
    simp only at hx1 hx2
    rw [packString_injective hx1, packSpecifier_injective hx2]
  have h3 := List.map_injective_iff.2 hinj h2
  cases a; cases b
  simp only at h1 h3
  rw [h1, h3]

theorem faithfulDeps_faithful : FaithfulPacking faithfulDeps := by
  intro a b h
  have h2 : [Encodable.encode (packHealthCheck a)] = [Encodable.encode (packHealthCheck b)] :=
    congrArg Any.Value h
  exact packHealthCheck_injective (Encodable.encode_injective (List.cons.inj h2).1)

theorem buildHealthCheckFilter_eq_descriptor (E : Deps) (p : Probe) :
    buildHealthCheckFilter E p = healthCheckDescriptor E p.Path := rfl

theorem healthCheckDescriptor_injective (E : Deps) (hE : FaithfulPacking E) (x y : String)
    (h : healthCheckDescriptor E x = healthCheckDescriptor E y) : x = y := by
  unfold healthCheckDescriptor at h
  have h1 := congrArg HttpFilter.ConfigType h
  simp only [ConfigType.TypedConfig.injEq] at h1
  have h2 := hE _ _ h1
  simpa using h2

theorem forFilterChains_outcome (E : Deps) (push : PushContext) (ep : IstioEndpoint)
    (ips : List String) (k s : Nat) (chains : List FilterChain) (hs : s ≤ chains.length) :
    (forFilterChains E push ep ips (List.range' s k) chains).2 =
      if s + k ≤ chains.length then Outcome.returned none
      else Outcome.panicked chains.length := by
  induction k generalizing s chains with
  | zero => rw [List.range'_zero, forFilterChains, if_pos (by omega)]
  | succ k ih =>
    rw [List.range'_succ, forFilterChains]
    cases h : chains[s]? with
    | none =>
      have hlen : chains.length ≤ s := List.getElem?_eq_none_iff.1 h
      have heq : s = chains.length := by omega
      simp only
      rw [if_neg (by omega), heq]
    | some fc =>
      have hlen : s < chains.length := by
        by_contra hn
        rw [List.getElem?_eq_none_iff.2 (Nat.le_of_not_lt hn)] at h
        exact Option.noConfusion h
      simp only
      split
      · rw [ih (s + 1) _ (by rw [List.length_set]; omega), List.length_set]
        by_cases hc : s + 1 + k ≤ chains.length
        · rw [if_pos hc, if_pos (by omega)]
        · rw [if_neg hc, if_neg (by omega)]
      · rw [ih (s + 1) _ (by omega)]
        by_cases hc : s + 1 + k ≤ chains.length
        · rw [if_pos hc, if_pos (by omega)]
        · rw [if_neg hc, if_neg (by omega)]

/-! ## Lemmas on the two components of the specification and on permutations -/

theorem applyHealthCheckFilters_nil (E : Deps) (c : FilterChain) :
    applyHealthCheckFilters E c [] = c := rfl

theorem applyHealthCheckFilters_cons (E : Deps) (c : FilterChain) (p : Probe)
    (ps : List Probe) :
    applyHealthCheckFilters E c (p :: ps) =
      if buildHealthCheckFilter E p ∉ c.HTTP then
        applyHealthCheckFilters E
          { c with HTTP := c.HTTP ++ [buildHealthCheckFilter E p] } ps
      else applyHealthCheckFilters E c ps := by
  unfold applyHealthCheckFilters
  rw [List.foldl_cons, buildHealthCheckFilter_eq_descriptor]
  by_cases h : healthCheckDescriptor E p.Path ∈ c.HTTP
  · have hany : c.HTTP.any
        (fun existing => decide (existing = healthCheckDescriptor E p.Path)) = true := by
      rw [List.any_eq_true]
      exact ⟨_, h, by simp⟩
    rw [if_pos hany, if_neg (not_not.2 h)]
  · have hany : ¬ c.HTTP.any
        (fun existing => decide (existing = healthCheckDescriptor E p.Path)) = true := by
      rw [List.any_eq_true]
      rintro ⟨x, hx, hd⟩
      have : x = healthCheckDescriptor E p.Path := by simpa using hd
      exact h (this ▸ hx)
    rw [if_neg hany, if_pos h]

theorem buildHealthCheckFilters_eq_apply_select (E : Deps) (probes : ProbeList)
    (ep : IstioEndpoint) (fc : FilterChain) :
    buildHealthCheckFilters E fc probes ep =
      applyHealthCheckFilters E fc (selectApplicableProbes probes ep.EndpointPort) := by
  induction probes generalizing fc with
  | nil => rw [buildHealthCheckFilters_nil]; rfl
  | cons p ps ih =>
    rw [buildHealthCheckFilters_cons]
    unfold selectApplicableProbes at ih ⊢
    by_cases ha : applicable ep.EndpointPort p = true
    · rw [List.filter_cons_of_pos (by simpa using ha), applyHealthCheckFilters_cons]
      by_cases hc : buildHealthCheckFilter E p ∈ fc.HTTP
      · rw [if_neg (fun h => h.2 hc), if_neg (not_not.2 hc), ih]
      · rw [if_pos ⟨ha, hc⟩, if_pos hc, ih]
    · rw [List.filter_cons_of_neg (by simpa using ha), if_neg (fun h => ha h.1), ih]

theorem forIPAddresses_eq_flatMap (E : Deps) (push : PushContext) (ep : IstioEndpoint)
    (ips : List String) (fc : FilterChain) :
    forIPAddresses E push ep fc ips =
      buildHealthCheckFilters E fc (ips.flatMap push.WorkloadHealthCheckInfo) ep := by
  induction ips generalizing fc with
  | nil => rw [forIPAddresses, List.flatMap_nil, buildHealthCheckFilters_nil]
  | cons ip ips ih =>
    rw [forIPAddresses, List.flatMap_cons, buildHealthCheckFilters_append, ih]

theorem mem_appended_iff (E : Deps) (fc : FilterChain) (probes : ProbeList)
    (ep : IstioEndpoint) (d : HttpFilter) :
    d ∈ appended E fc probes ep ↔ d ∈ applicableFilters E probes ep ∧ d ∉ fc.HTTP := by
  unfold appended
  rw [List.mem_filter, mem_firstOccurrences]
  simp

theorem appended_perm (E : Deps) (fc : FilterChain) (ps qs : ProbeList)
    (ep : IstioEndpoint) (h : ps.Perm qs) :
    (appended E fc ps ep).Perm (appended E fc qs ep) := by
  rw [List.perm_ext_iff_of_nodup (nodup_appended E fc ps ep) (nodup_appended E fc qs ep)]
  intro d
  rw [mem_appended_iff, mem_appended_iff]
  have hperm : (applicableFilters E ps ep).Perm (applicableFilters E qs ep) := by
    unfold applicableFilters
    exact (h.filter _).map _
  rw [hperm.mem_iff]

theorem OnInboundListener_guard (E : Deps) (inp : InputParams) (mutable : MutableObjects)
    (h : inp.Node = none ∨
      (∃ node, inp.Node = some node ∧ node.Type_ ≠ NodeType.SidecarProxy) ∨
      inp.ServiceInstance = none) :
    OnInboundListener E inp mutable = (mutable, Outcome.returned none) := by
  rcases h with hn | ⟨node, hn, ht⟩ | hs
  · simp [OnInboundListener, hn]
  · simp [OnInboundListener, hn, ht]
  · cases hn : inp.Node with
    | none => simp [OnInboundListener, hn]
    | some node =>
      by_cases ht : node.Type_ = NodeType.SidecarProxy
      · simp [OnInboundListener, hn, ht, hs]
      · simp [OnInboundListener, hn, ht]

/-! ## Further properties of OnInboundListener and of the descriptor -/

/-- C11, as stated, fails: for a sidecar with a bound service instance and a non-null
listener that has two filter chains, a mutable object with a single chain makes the
loop stop on the out-of-range index 1 instead of returning. -/
theorem OnInboundListener_index_out_of_range :
    longListenerMutable.Listener =
        some { FilterChains := [{ Name := "http" }, { Name := "tcp" }] } ∧
      longListenerMutable.FilterChains.length = 1 ∧
      (OnInboundListener exampleDeps sidecarInput longListenerMutable).2 =
        Outcome.panicked 1 := by
  decide

/-- C11, amended. With a non-null listener the hook never returns an error, and it
returns success exactly when the node is absent, or is not a sidecar, or no service
instance is bound, or the mutable object has at least as many filter chains as the
listener. -/
theorem OnInboundListener_success_iff (E : Deps) (inp : InputParams)
    (mutable : MutableObjects) (listener : Listener)
    (hl : mutable.Listener = some listener) :
    (∀ err, (OnInboundListener E inp mutable).2 ≠ Outcome.returned (some err)) ∧
      ((OnInboundListener E inp mutable).2 = Outcome.returned none ↔
        (inp.Node = none ∨
          (∃ node, inp.Node = some node ∧ node.Type_ ≠ NodeType.SidecarProxy) ∨
          inp.ServiceInstance = none ∨
          listener.FilterChains.length ≤ mutable.FilterChains.length)) := by
  cases hn : inp.Node with
  | none =>
    rw [OnInboundListener_guard E inp mutable (Or.inl hn)]
    refine ⟨fun err he => ?_, fun _ => Or.inl rfl, fun _ => rfl⟩
    cases he
  | some node =>
    by_cases ht : node.Type_ = NodeType.SidecarProxy
    · cases hs : inp.ServiceInstance with
      | none =>
        rw [OnInboundListener_guard E inp mutable (Or.inr (Or.inr hs))]
        refine ⟨fun err he => ?_, fun _ => Or.inr (Or.inr (Or.inl rfl)), fun _ => rfl⟩
        cases he
      | some si =>
        rw [OnInboundListener_loop E inp mutable node si listener hn ht hs hl]
        simp only
        rw [forFilterChains_outcome E inp.Push si.Endpoint node.IPAddresses _ 0 _
          (Nat.zero_le _), Nat.zero_add]
        by_cases hlen : listener.FilterChains.length ≤ mutable.FilterChains.length
        · rw [if_pos hlen]
          refine ⟨fun err he => ?_, fun _ => Or.inr (Or.inr (Or.inr hlen)), fun _ => rfl⟩
          cases he
        · rw [if_neg hlen]
          refine ⟨fun err he => ?_, fun he => ?_, ?_⟩
          · cases he
          · cases he
          · rintro (h | ⟨node2, h, hne⟩ | h | h)
            · cases h
            · cases h
              exact absurd ht hne
            · cases h
            · exact absurd h hlen
    · rw [OnInboundListener_guard E inp mutable (Or.inr (Or.inl ⟨node, hn, ht⟩))]
      refine ⟨fun err he => ?_, fun _ => Or.inr (Or.inl ⟨node, rfl, ht⟩), fun _ => rfl⟩
      cases he

/-- Witness of the amended C11: with two filter chains in the listener and two in the
mutable object the hook returns success. -/
theorem OnInboundListener_success_iff_witness :
    (OnInboundListener exampleDeps sidecarInput twoChainMutable).2 = Outcome.returned none :=
  ((OnInboundListener_success_iff exampleDeps sidecarInput twoChainMutable
      { FilterChains := [{ Name := "http" }, { Name := "tcp" }] } rfl).2).2
    (Or.inr (Or.inr (Or.inr (by decide))))

/-- C12. Descriptor shape: for every probe, also one with an empty path, the filter of
buildHealthCheckFilter has the well-known health-check filter name and the packed
configuration with PassThroughMode true and exactly one header matcher, on the header
:path, an exact match against the path of the probe; the port of the probe does not
appear: changing it does not change the descriptor. -/
theorem buildHealthCheckFilter_shape (E : Deps) (probe : Probe) :
    buildHealthCheckFilter E probe =
        { Name := E.HealthCheck
          ConfigType := ConfigType.TypedConfig (E.MessageToAny
            { PassThroughMode := some true
              Headers := [{ Name := ":path"
                            HeaderMatchSpecifier :=
                              HeaderMatchSpecifier.ExactMatch probe.Path }] }) } ∧
      (buildHealthCheckFilter E probe).Name = E.HealthCheck ∧
      (∀ port : Option Port,
        buildHealthCheckFilter E { probe with Port := port } =
          buildHealthCheckFilter E probe) :=
  ⟨rfl, rfl, fun _ => rfl⟩

/-! ## Further properties of buildHealthCheckFilters -/

/-- C13. The single loop refines the two components of the specification: the chain
left by buildHealthCheckFilters is the chain left by applyHealthCheckFilters on the
probes chosen by selectApplicableProbes for the endpoint port; and the chosen probes
are a sublist of the probe list (same relative order), are exactly the probes whose
Port is absent or equals the chain port, and keep their multiplicity (no
deduplication). -/
theorem buildHealthCheckFilters_refines_spec (E : Deps) (fc : FilterChain)
    (probes : ProbeList) (ep : IstioEndpoint) :
    buildHealthCheckFilters E fc probes ep =
        applyHealthCheckFilters E fc (selectApplicableProbes probes ep.EndpointPort) ∧
      (selectApplicableProbes probes ep.EndpointPort).Sublist probes ∧
      (∀ p : Probe, p ∈ selectApplicableProbes probes ep.EndpointPort ↔
        p ∈ probes ∧
          (p.Port = none ∨ ∃ q, p.Port = some q ∧ q.Port = Int.ofNat ep.EndpointPort)) ∧
      (∀ p : Probe,
        (p.Port = none ∨ ∃ q, p.Port = some q ∧ q.Port = Int.ofNat ep.EndpointPort) →
        (selectApplicableProbes probes ep.EndpointPort).count p = probes.count p) := by
  refine ⟨buildHealthCheckFilters_eq_apply_select E probes ep fc, ?_, ?_, ?_⟩
  · exact List.filter_sublist _
  · intro p
    unfold selectApplicableProbes
    rw [List.mem_filter, applicable_iff]
  · intro p hp
    unfold selectApplicableProbes
    exact List.count_filter ((applicable_iff _ _).2 hp)

/-- Witness of C13: the port-less probe /healthz occurs in the selection as often as in
the probe list. -/
theorem buildHealthCheckFilters_refines_spec_witness :
    (selectApplicableProbes [healthzProbe, readyProbe, healthzProbe]
        endpoint9090.EndpointPort).count healthzProbe =
      [healthzProbe, readyProbe, healthzProbe].count healthzProbe :=
  (buildHealthCheckFilters_refines_spec exampleDeps emptyHTTPChain
    [healthzProbe, readyProbe, healthzProbe] endpoint9090).2.2.2 healthzProbe (Or.inl rfl)

/-- C14. The example of the specification: on a chain with an empty HTTP filter list
and the probes /healthz (no port) and /ready (port 8080), the endpoint port 8080 gives
exactly the descriptors of /healthz and /ready in this order and the endpoint port
9090 gives exactly the descriptor of /healthz; a second run of either case keeps the
number of filters. The packing of the configuration is taken to be faithful. -/
theorem buildHealthCheckFilters_spec_example (E : Deps) (hE : FaithfulPacking E)
    (fc : FilterChain) (hfc : fc.HTTP = []) :
    (buildHealthCheckFilters E fc [healthzProbe, readyProbe] endpoint8080).HTTP =
        [healthCheckDescriptor E "/healthz", healthCheckDescriptor E "/ready"] ∧
      (buildHealthCheckFilters E fc [healthzProbe, readyProbe] endpoint9090).HTTP =
        [healthCheckDescriptor E "/healthz"] ∧
      (buildHealthCheckFilters E
          (buildHealthCheckFilters E fc [healthzProbe, readyProbe] endpoint8080)
          [healthzProbe, readyProbe] endpoint8080).HTTP.length = 2 ∧
      (buildHealthCheckFilters E
          (buildHealthCheckFilters E fc [healthzProbe, readyProbe] endpoint9090)
          [healthzProbe, readyProbe] endpoint9090).HTTP.length = 1 := by
  have hne : healthCheckDescriptor E "/ready" ≠ healthCheckDescriptor E "/healthz" := by
    intro h
    exact absurd (healthCheckDescriptor_injective E hE _ _ h) (by decide)
  have hnil : ∀ d : HttpFilter, d ∉ fc.HTTP := by
    intro d
    rw [hfc]
    exact List.not_mem_nil d
  have hready : buildHealthCheckFilter E readyProbe ∉
      fc.HTTP ++ [buildHealthCheckFilter E healthzProbe] := by
    rw [hfc, List.nil_append, List.mem_singleton]
    exact hne
  have h8080 :
      (buildHealthCheckFilters E fc [healthzProbe, readyProbe] endpoint8080).HTTP =
        [healthCheckDescriptor E "/healthz", healthCheckDescriptor E "/ready"] := by
    have ha1 : applicable endpoint8080.EndpointPort healthzProbe = true := by decide
    have ha2 : applicable endpoint8080.EndpointPort readyProbe = true := by decide
    rw [buildHealthCheckFilters_cons, if_pos ⟨ha1, hnil _⟩,
      buildHealthCheckFilters_cons, if_pos ⟨ha2, hready⟩, buildHealthCheckFilters_nil]
    show (fc.HTTP ++ [buildHealthCheckFilter E healthzProbe]) ++
      [buildHealthCheckFilter E readyProbe] = _
    rw [hfc]
    rfl
  have h9090 :
      (buildHealthCheckFilters E fc [healthzProbe, readyProbe] endpoint9090).HTTP =
        [healthCheckDescriptor E "/healthz"] := by
    have ha1 : applicable endpoint9090.EndpointPort healthzProbe = true := by decide
    have ha2 : ¬ applicable endpoint9090.EndpointPort readyProbe = true := by decide
    rw [buildHealthCheckFilters_cons, if_pos ⟨ha1, hnil _⟩,
      buildHealthCheckFilters_cons, if_neg (fun h => ha2 h.1), buildHealthCheckFilters_nil]
    show fc.HTTP ++ [buildHealthCheckFilter E healthzProbe] = _
    rw [hfc]
    rfl
  refine ⟨h8080, h9090, ?_, ?_⟩
  · rw [buildHealthCheckFilters_twice, h8080]
    rfl
  · rw [buildHealthCheckFilters_twice, h9090]
    rfl

/-- Witness of C14 on the faithful packing and the empty HTTP chain. -/
theorem buildHealthCheckFilters_spec_example_witness :
    (buildHealthCheckFilters faithfulDeps emptyHTTPChain [healthzProbe, readyProbe]
        endpoint9090).HTTP =
      [healthCheckDescriptor faithfulDeps "/healthz"] :=
  (buildHealthCheckFilters_spec_example faithfulDeps faithfulDeps_faithful emptyHTTPChain
    rfl).2.1

/-- C15. Duplicate-freeness is preserved: when the HTTP filter list of the chain holds
no two equal descriptors at different positions, neither does the HTTP filter list
after buildHealthCheckFilters. -/
theorem buildHealthCheckFilters_preserves_nodup (E : Deps) (fc : FilterChain)
    (probes : ProbeList) (ep : IstioEndpoint) (h : fc.HTTP.Nodup) :
    (buildHealthCheckFilters E fc probes ep).HTTP.Nodup := by
  rw [buildHealthCheckFilters_HTTP_appended, List.nodup_append]
  refine ⟨h, nodup_appended E fc probes ep, ?_⟩
  intro d hd1 hd2
  exact not_mem_of_mem_appended E fc probes ep d hd2 hd1

/-- Witness of C15 on a chain with one filter and a probe list that repeats a probe. -/
theorem buildHealthCheckFilters_preserves_nodup_witness :
    (buildHealthCheckFilters exampleDeps corsChain [healthzProbe, readyProbe, healthzProbe]
      endpoint8080).HTTP.Nodup :=
  buildHealthCheckFilters_preserves_nodup exampleDeps corsChain
    [healthzProbe, readyProbe, healthzProbe] endpoint8080 (by decide)

/-- C16. The deduplication key is the path alone: two probes with the same path have
the same descriptor whatever their ports are; under a faithful packing of the
configuration two probes with the same descriptor have the same path; hence a probe
without a port and a probe on the endpoint port with the same path give, in either
order, the filters that one of them gives alone: a single new filter when the chain
does not hold the descriptor yet. -/
theorem buildHealthCheckFilter_key_is_path (E : Deps) :
    (∀ p q : Probe, p.Path = q.Path →
        buildHealthCheckFilter E p = buildHealthCheckFilter E q) ∧
      (FaithfulPacking E → ∀ p q : Probe,
        buildHealthCheckFilter E p = buildHealthCheckFilter E q → p.Path = q.Path) ∧
      (∀ (fc : FilterChain) (ep : IstioEndpoint) (p q : Probe), p.Path = q.Path →
        p.Port = none → (∃ r, q.Port = some r ∧ r.Port = Int.ofNat ep.EndpointPort) →
        (buildHealthCheckFilters E fc [p, q] ep).HTTP =
            (buildHealthCheckFilters E fc [p] ep).HTTP ∧
          (buildHealthCheckFilters E fc [q, p] ep).HTTP =
            (buildHealthCheckFilters E fc [p] ep).HTTP ∧
          (buildHealthCheckFilter E p ∉ fc.HTTP →
            (buildHealthCheckFilters E fc [p, q] ep).HTTP =
              fc.HTTP ++ [buildHealthCheckFilter E p])) := by
  have hsame : ∀ p q : Probe, p.Path = q.Path →
      buildHealthCheckFilter E p = buildHealthCheckFilter E q := by
    intro p q h
    rw [buildHealthCheckFilter_eq_descriptor, buildHealthCheckFilter_eq_descriptor, h]
  refine ⟨hsame, ?_, ?_⟩
  · intro hE p q h
    rw [buildHealthCheckFilter_eq_descriptor, buildHealthCheckFilter_eq_descriptor] at h
    exact healthCheckDescriptor_injective E hE _ _ h
  · intro fc ep p q hpath hp hq
    have hap : applicable ep.EndpointPort p = true := (applicable_iff _ _).2 (Or.inl hp)
    have haq : applicable ep.EndpointPort q = true := (applicable_iff _ _).2 (Or.inr hq)
    have hd := hsame q p hpath.symm
    have h1 : (buildHealthCheckFilters E fc [p, q] ep).HTTP =
        (buildHealthCheckFilters E fc [p] ep).HTTP := by
      have hin : buildHealthCheckFilter E q ∈ (buildHealthCheckFilters E fc [p] ep).HTTP := by
        rw [hd]
        exact mem_buildHealthCheckFilters E fc [p] ep p (List.mem_singleton.2 rfl) hap
      rw [show [p, q] = [p] ++ [q] from rfl, buildHealthCheckFilters_append,
        buildHealthCheckFilters_cons, if_neg (fun h => h.2 hin), buildHealthCheckFilters_nil]
    have h2 : (buildHealthCheckFilters E fc [q, p] ep).HTTP =
        (buildHealthCheckFilters E fc [p] ep).HTTP := by
      have hin : buildHealthCheckFilter E p ∈ (buildHealthCheckFilters E fc [q] ep).HTTP := by
        rw [← hd]
        exact mem_buildHealthCheckFilters E fc [q] ep q (List.mem_singleton.2 rfl) haq
      rw [show [q, p] = [q] ++ [p] from rfl, buildHealthCheckFilters_append,
        buildHealthCheckFilters_cons E (buildHealthCheckFilters E fc [q] ep) p [] ep,
        if_neg (fun h => h.2 hin), buildHealthCheckFilters_nil,
        buildHealthCheckFilters_cons, buildHealthCheckFilters_cons, hd]
      simp only [hap, haq, true_and, buildHealthCheckFilters_nil]
    refine ⟨h1, h2, ?_⟩
    intro hfree
    rw [h1, buildHealthCheckFilters_cons, if_pos ⟨hap, hfree⟩, buildHealthCheckFilters_nil]

/-- Witness of C16 on the faithful packing: two probes on /ready, one without a port
and one on the endpoint port 8080, leave one filter on the empty chain. -/
theorem buildHealthCheckFilter_key_is_path_witness :
    (buildHealthCheckFilter faithfulDeps readyProbe =
        buildHealthCheckFilter faithfulDeps { Port := none, Path := "/ready" } →
      readyProbe.Path = "/ready") ∧
      (buildHealthCheckFilters faithfulDeps emptyHTTPChain
          [{ Port := none, Path := "/ready" }, readyProbe] endpoint8080).HTTP =
        emptyHTTPChain.HTTP ++
          [buildHealthCheckFilter faithfulDeps { Port := none, Path := "/ready" }] :=
  ⟨(buildHealthCheckFilter_key_is_path faithfulDeps).2.1 faithfulDeps_faithful readyProbe
      { Port := none, Path := "/ready" },
    ((buildHealthCheckFilter_key_is_path faithfulDeps).2.2 emptyHTTPChain endpoint8080
      { Port := none, Path := "/ready" } readyProbe rfl rfl
      ⟨{ Name := "http", Port := 8080 }, rfl, rfl⟩).2.2 (List.not_mem_nil _)⟩

/-- C17. Sequential application composes by concatenation: a call with the probes ps
followed by a call with the probes qs leaves the chain that one call with ps ++ qs
leaves; so the loop of OnInboundListener over the addresses of the node leaves, on an
HTTP chain, the chain of one call with the concatenation, in address order, of the
probe lists of all the addresses. -/
theorem buildHealthCheckFilters_composes (E : Deps) (fc : FilterChain)
    (ps qs : ProbeList) (ep : IstioEndpoint) (push : PushContext) (ips : List String) :
    buildHealthCheckFilters E (buildHealthCheckFilters E fc ps ep) qs ep =
        buildHealthCheckFilters E fc (ps ++ qs) ep ∧
      forIPAddresses E push ep fc ips =
        buildHealthCheckFilters E fc (ips.flatMap push.WorkloadHealthCheckInfo) ep ∧
      (fc.ListenerProtocol = ListenerProtocol.ListenerProtocolHTTP →
        visitFilterChain E push ep ips fc =
          buildHealthCheckFilters E fc (ips.flatMap push.WorkloadHealthCheckInfo) ep) := by
  refine ⟨(buildHealthCheckFilters_append E ps qs ep fc).symm,
    forIPAddresses_eq_flatMap E push ep ips fc, ?_⟩
  intro hP
  rw [visitFilterChain, if_pos hP, forIPAddresses_eq_flatMap]

/-- Witness of C17: the loop step on the empty HTTP chain for two addresses. -/
theorem buildHealthCheckFilters_composes_witness :
    visitFilterChain exampleDeps examplePush endpoint8080 ["10.0.0.1", "10.0.0.2"]
        emptyHTTPChain =
      buildHealthCheckFilters exampleDeps emptyHTTPChain
        (["10.0.0.1", "10.0.0.2"].flatMap examplePush.WorkloadHealthCheckInfo) endpoint8080 :=
  (buildHealthCheckFilters_composes exampleDeps emptyHTTPChain [] [] endpoint8080 examplePush
    ["10.0.0.1", "10.0.0.2"]).2.2 rfl

/-- C18. The set of filters does not depend on the probe order: for two probe lists
that are permutations of each other the resulting HTTP filter lists have the same
length and are permutations of each other, each being the pre-existing list followed
by appended filters that are permutations of each other. -/
theorem buildHealthCheckFilters_perm (E : Deps) (fc : FilterChain) (ps qs : ProbeList)
    (ep : IstioEndpoint) (h : ps.Perm qs) :
    (buildHealthCheckFilters E fc ps ep).HTTP.length =
        (buildHealthCheckFilters E fc qs ep).HTTP.length ∧
      (buildHealthCheckFilters E fc ps ep).HTTP.Perm
        (buildHealthCheckFilters E fc qs ep).HTTP ∧
      ∃ A B : List HttpFilter,
        (buildHealthCheckFilters E fc ps ep).HTTP = fc.HTTP ++ A ∧
        (buildHealthCheckFilters E fc qs ep).HTTP = fc.HTTP ++ B ∧ A.Perm B := by
  have hp := appended_perm E fc ps qs ep h
  have hperm : (buildHealthCheckFilters E fc ps ep).HTTP.Perm
      (buildHealthCheckFilters E fc qs ep).HTTP := by
    rw [buildHealthCheckFilters_HTTP_appended, buildHealthCheckFilters_HTTP_appended]
    exact hp.append_left _
  exact ⟨hperm.length_eq, hperm,
    ⟨_, _, buildHealthCheckFilters_HTTP_appended E fc ps ep,
      buildHealthCheckFilters_HTTP_appended E fc qs ep, hp⟩⟩

/-- Witness of C18: the probes /healthz and /ready in the two orders. -/
theorem buildHealthCheckFilters_perm_witness :
    (buildHealthCheckFilters exampleDeps corsChain [healthzProbe, readyProbe]
        endpoint8080).HTTP.Perm
      (buildHealthCheckFilters exampleDeps corsChain [readyProbe, healthzProbe]
        endpoint8080).HTTP :=
  (buildHealthCheckFilters_perm exampleDeps corsChain [healthzProbe, readyProbe]
    [readyProbe, healthzProbe] endpoint8080 (List.Perm.swap _ _ _)).2.1

/-- C19. Chain indexing is safe when the mutable object has at least as many filter
chains as the listener: for a sidecar node, a bound service instance and a non-null
listener, every index of the loop (the indices of the filter chains of the listener)
then selects a chain of the mutable object and the hook returns success; and a chain
at an index that is not below the number of filter chains of the listener is never
changed, the number of chains being kept. -/
theorem OnInboundListener_indexing_safe (E : Deps) (inp : InputParams)
    (mutable : MutableObjects) (node : Proxy) (si : ServiceInstance) (listener : Listener)
    (hn : inp.Node = some node) (ht : node.Type_ = NodeType.SidecarProxy)
    (hs : inp.ServiceInstance = some si) (hl : mutable.Listener = some listener)
    (hlen : listener.FilterChains.length ≤ mutable.FilterChains.length) :
    (∀ i ∈ List.range listener.FilterChains.length,
        ∃ chain, mutable.FilterChains[i]? = some chain) ∧
      (OnInboundListener E inp mutable).2 = Outcome.returned none ∧
      (OnInboundListener E inp mutable).1.FilterChains.length =
        mutable.FilterChains.length ∧
      (∀ j : Nat, listener.FilterChains.length ≤ j →
        (OnInboundListener E inp mutable).1.FilterChains[j]? =
          mutable.FilterChains[j]?) := by
  refine ⟨?_, ?_, ?_, ?_⟩
  · intro i hi
    have hi2 : i < mutable.FilterChains.length := by
      have := List.mem_range.1 hi
      omega
    exact ⟨_, List.getElem?_eq_getElem hi2⟩
  · rw [OnInboundListener_loop E inp mutable node si listener hn ht hs hl]
    simp only
    rw [forFilterChains_outcome E inp.Push si.Endpoint node.IPAddresses _ 0 _
      (Nat.zero_le _), Nat.zero_add, if_pos hlen]
  · rw [OnInboundListener_loop E inp mutable node si listener hn ht hs hl]
    exact forFilterChains_length _ _ _ _ _ _
  · intro j hj
    rw [OnInboundListener_loop E inp mutable node si listener hn ht hs hl]
    simp only
    rw [forFilterChains_getElem?, if_neg (by omega)]

/-- Witness of C19: the listener and the mutable object both have two chains. -/
theorem OnInboundListener_indexing_safe_witness :
    (OnInboundListener exampleDeps sidecarInput twoChainMutable).2 = Outcome.returned none ∧
      (OnInboundListener exampleDeps sidecarInput twoChainMutable).1.FilterChains.length =
        twoChainMutable.FilterChains.length :=
  ⟨(OnInboundListener_indexing_safe exampleDeps sidecarInput twoChainMutable sidecarNode
      instance8080 { FilterChains := [{ Name := "http" }, { Name := "tcp" }] } rfl rfl rfl rfl
      (by decide)).2.1,
    (OnInboundListener_indexing_safe exampleDeps sidecarInput twoChainMutable sidecarNode
      instance8080 { FilterChains := [{ Name := "http" }, { Name := "tcp" }] } rfl rfl rfl rfl
      (by decide)).2.2.1⟩

end Health
